import Mathlib

/-!
# Verification of the schema migration engine (`src/migrate.js`)

This file gives a shallow embedding of the migration engine's core:

* `splitSqlStatements` — the quote/comment-aware SQL statement splitter
  (`splitSqlStatements` in `src/migrate.js`, lines 18–77), modelled as a
  structurally recursive scan over the character list with the same five
  boolean state flags and the same one-character lookahead as the source.
* `applyMigrationFile` — the transactional applier (lines 84–120), modelled
  over an abstract database `DbModel δ`: statements execute against a working
  schema, tolerated "already exists" errors are logged and skipped, a fatal
  error rolls the transaction back (the persistent state is returned
  unchanged) and propagates the underlying error.
* `runMigrations` — the orchestrator (lines 122–143): filter `.sql` sources,
  sort by name, skip already-applied names, halt on the first failure.

Theorems at the end settle the frozen claims about this engine.
-/

namespace Migrate

/-- Whitespace as trimmed by JavaScript's `String.prototype.trim` (the ASCII
part, which is all the migration engine ever meets). -/
def isWsChar (c : Char) : Bool :=
  c == ' ' || c == '\t' || c == '\n' || c == '\r' || c == '\x0b' || c == '\x0c'

/-- Model of JavaScript `s.trim()`: drop whitespace from the front, then from
the back. -/
def trimChars (l : List Char) : List Char :=
  (l.dropWhile isWsChar).rdropWhile isWsChar

/-- The scanner state of `splitSqlStatements`: the statements pushed so far,
the current buffer, and the five mutually-exclusive lexical flags of the
source (`inSingle`, `inDouble`, `inBacktick`, `inLineComment`,
`inBlockComment`). -/
structure SplitState where
  statements : List String
  current : List Char
  inSingle : Bool
  inDouble : Bool
  inBacktick : Bool
  inLineComment : Bool
  inBlockComment : Bool
deriving DecidableEq, Repr

/-- `if (current.trim()) statements.push(current.trim())` of the source. -/
def pushCurrent (st : SplitState) : List String :=
  if trimChars st.current = [] then st.statements
  else st.statements ++ [String.mk (trimChars st.current)]

/-- The string-toggle block of the source (lines 61–64): an unescaped quote
character toggles its own quote flag provided the other two quote flags are
off; `prev` is `sql[i - 1]`, the previous character of the raw input. -/
def quoteToggles (prev : Option Char) (c : Char) (st : SplitState) :
    Bool × Bool × Bool :=
  if st.inDouble = false ∧ st.inBacktick = false ∧ c = '\'' ∧ prev ≠ some '\\' then
    (!st.inSingle, st.inDouble, st.inBacktick)
  else if st.inSingle = false ∧ st.inBacktick = false ∧ c = '"' ∧ prev ≠ some '\\' then
    (st.inSingle, !st.inDouble, st.inBacktick)
  else if st.inSingle = false ∧ st.inDouble = false ∧ c = '`' ∧ prev ≠ some '\\' then
    (st.inSingle, st.inDouble, !st.inBacktick)
  else (st.inSingle, st.inDouble, st.inBacktick)

/-- One iteration of the source's loop for a character `c` that is not inside
a comment and does not begin one: apply the quote toggles, then either end the
statement at an unquoted `;` (lines 66–70) or append `c` to the buffer
(line 72). -/
def normalStepState (prev : Option Char) (c : Char) (st : SplitState) : SplitState :=
  let q := quoteToggles prev c st
  if q.1 = false ∧ q.2.1 = false ∧ q.2.2 = false ∧ c = ';' then
    { st with inSingle := q.1, inDouble := q.2.1, inBacktick := q.2.2,
              statements := pushCurrent st, current := [] }
  else
    { st with inSingle := q.1, inDouble := q.2.1, inBacktick := q.2.2,
              current := st.current ++ [c] }

/-- The character loop of `splitSqlStatements` (lines 27–73). `prev` is the
previous character of the raw input (`sql[i - 1]`, `none` at the start); the
lookahead `next` appears as a nested match on the remainder of the list. -/
def splitLoop (prev : Option Char) (cs : List Char) (st : SplitState) : SplitState :=
  match cs with
  | [] => st
  | c :: rest =>
    if st.inLineComment then
      if c = '\n' then
        splitLoop (some c) rest
          { st with inLineComment := false, current := st.current ++ [c] }
      else splitLoop (some c) rest st
    else if st.inBlockComment then
      match rest with
      | r1 :: rest2 =>
        if c = '*' ∧ r1 = '/' then
          splitLoop (some '/') rest2 { st with inBlockComment := false }
        else splitLoop (some c) (r1 :: rest2) st
      | [] => st
    else
      match rest with
      | r1 :: rest2 =>
        if st.inSingle = false ∧ st.inDouble = false ∧ st.inBacktick = false ∧
            c = '-' ∧ r1 = '-' then
          splitLoop (some '-') rest2 { st with inLineComment := true }
        else if st.inSingle = false ∧ st.inDouble = false ∧ st.inBacktick = false ∧
            c = '/' ∧ r1 = '*' then
          splitLoop (some '*') rest2 { st with inBlockComment := true }
        else
          splitLoop (some c) (r1 :: rest2) (normalStepState prev c st)
      | [] => normalStepState prev c st

/-- Initial scanner state (lines 19–25 of the source). -/
def initState : SplitState :=
  { statements := [], current := [], inSingle := false, inDouble := false,
    inBacktick := false, inLineComment := false, inBlockComment := false }

/-- `splitSqlStatements` of `src/migrate.js`: run the scanner over the text,
then flush a trimmed non-empty buffer as a final statement (line 75). -/
def splitSqlStatements (sql : String) : List String :=
  pushCurrent (splitLoop none sql.data initState)

/-- JS `String.prototype.trim`, lifted to `String`. -/
def strTrim (s : String) : String :=
  String.mk (trimChars s.data)

/-- A MySQL error as the source observes it: the driver's error `code` string
and the human-readable `message`. -/
structure SqlError where
  code : String
  message : String
deriving DecidableEq, Repr

/-- The tolerated "already exists"-class codes of lines 99–100 of the source. -/
def isToleratedError (e : SqlError) : Bool :=
  e.code == "ER_DUP_FIELDNAME" || e.code == "ER_TABLE_EXISTS_ERROR" ||
    e.code == "ER_DUP_KEYNAME" || e.code == "ER_CANT_DROP_FIELD_OR_KEY"

/-- `err.message.split('\n')[0]` of line 101. -/
def firstLine (s : String) : String :=
  String.mk (s.data.takeWhile (fun c => c ≠ '\n'))

/-- The console output of the engine, one constructor per `console.log` /
`console.error` site of the source. -/
inductive LogEntry where
  | skipping (fileName : String) (detail : String)
  | processed (fileName : String)
  | failed (fileName : String) (message : String)
  | noMigrationsDir
  | migrationsComplete
deriving DecidableEq, Repr

/-- The abstract target database: executing one SQL statement against a
schema state either yields a new schema state or fails with a `SqlError`.
This is the `conn.query(stmt)` black box of the source. -/
structure DbModel (δ : Type) where
  exec : δ → String → Except SqlError δ

/-- The persistent database: the schema plus the `_migrations` ledger (the
list of recorded names, in `applied_at` order). -/
structure DbState (δ : Type) where
  schema : δ
  ledger : List String
deriving DecidableEq, Repr

/-- `INSERT IGNORE INTO _migrations (name) VALUES (?)` (line 109): a no-op
when a record for `name` already exists. -/
def insertIgnore (ledger : List String) (name : String) : List String :=
  if name ∈ ledger then ledger else ledger ++ [name]

/-- The statement loop of `applyMigrationFile` (lines 92–106), run against a
working schema inside the open transaction. It returns the first fatal error
(if any), the schema reached, and the diagnostics logged for tolerated
errors. An empty statement is skipped (`if (!stmt) continue`); a tolerated
error logs a skip diagnostic and continues; any other error aborts at once. -/
def execStatements (M : DbModel δ) (fileName : String) :
    List String → δ → Option SqlError × δ × List LogEntry
  | [], schema => (none, schema, [])
  | stmt :: rest, schema =>
    if stmt = "" then execStatements M fileName rest schema
    else
      match M.exec schema stmt with
      | Except.ok schema2 => execStatements M fileName rest schema2
      | Except.error err =>
        if isToleratedError err then
          let r := execStatements M fileName rest schema
          (r.1, r.2.1, LogEntry.skipping fileName (firstLine err.message) :: r.2.2)
        else (some err, schema, [])

/-- Outcome of `applyMigrationFile`: the database after commit or rollback,
the propagated error (`none` on success — the raw `SqlError` is rethrown
unchanged on failure, line 116), and the log lines emitted. -/
structure ApplyResult (δ : Type) where
  db : DbState δ
  err : Option SqlError
  logs : List LogEntry
deriving DecidableEq, Repr

/-- `applyMigrationFile` (lines 84–120): split the text, run the statements
in one transaction; on success record the name with insert-ignore semantics
and commit; on a fatal error roll back (the persistent `DbState` is returned
unchanged) and rethrow the underlying error. -/
def applyMigrationFile (M : DbModel δ) (db : DbState δ) (fileName sqlText : String) :
    ApplyResult δ :=
  match execStatements M fileName (splitSqlStatements sqlText) db.schema with
  | (none, schema2, logs) =>
    { db := { schema := schema2, ledger := insertIgnore db.ledger fileName },
      err := none, logs := logs ++ [LogEntry.processed fileName] }
  | (some err, _, logs) =>
    { db := db, err := some err, logs := logs ++ [LogEntry.failed fileName err.message] }

/-- `f.endsWith('.sql')` of line 133. -/
def endsWithSql (name : String) : Bool :=
  List.isSuffixOf ".sql".data name.data

/-- Lexicographic less-or-equal on character lists: how JavaScript's default
`Array.prototype.sort` compares file-name strings (code unit by code unit). -/
def lexLe : List Char → List Char → Bool
  | [], _ => true
  | _ :: _, [] => false
  | x :: xs, y :: ys => if x = y then lexLe xs ys else decide (x < y)

/-- The string comparison used to order migration file names. -/
def strLeB (s t : String) : Bool :=
  lexLe s.data t.data

/-- `.sort()` of line 134: ascending lexicographic order on file names. -/
def sortByName (l : List (String × String)) : List (String × String) :=
  List.insertionSort (fun p q => strLeB p.1 q.1 = true) l

/-- The migration loop of `runMigrations` (lines 136–140) over the sorted
sources (name, text): skip names in the `applied` set read once up front;
otherwise apply, and on the first failure stop at once, propagating the
error. -/
def runFiles (M : DbModel δ) (applied : List String) :
    List (String × String) → DbState δ → Option SqlError × DbState δ × List LogEntry
  | [], db => (none, db, [])
  | (name, text) :: rest, db =>
    if name ∈ applied then runFiles M applied rest db
    else
      let r := applyMigrationFile M db name text
      match r.err with
      | some e => (some e, r.db, r.logs)
      | none =>
        let k := runFiles M applied rest r.db
        (k.1, k.2.1, r.logs ++ k.2.2)

/-- `runMigrations` (lines 122–143): read the applied set from the ledger;
with no migrations directory, log and succeed trivially; otherwise keep the
`.sql` sources, sort them by name and run the loop, logging completion when
every source was processed or skipped. -/
def runMigrations (M : DbModel δ) (db : DbState δ)
    (files : Option (List (String × String))) :
    Option SqlError × DbState δ × List LogEntry :=
  let applied := db.ledger
  match files with
  | none => (none, db, [LogEntry.noMigrationsDir])
  | some fl =>
    let sorted := sortByName (fl.filter (fun p => endsWithSql p.1))
    let r := runFiles M applied sorted db
    match r.1 with
    | some e => (some e, r.2.1, r.2.2)
    | none => (none, r.2.1, r.2.2 ++ [LogEntry.migrationsComplete])

/-- The migration names reported as processed, in log order: the observable
apply order of the run. -/
def processedNames (logs : List LogEntry) : List String :=
  logs.filterMap (fun e =>
    match e with
    | LogEntry.processed n => some n
    | _ => none)

/-- A concrete test database for witnesses: the schema is the list of
executed statements; `BOOM` and `CRASH` fail fatally with one and the same
parse error, `DUP` fails with a tolerated duplicate-column error, everything
else succeeds. -/
def demoExec (schema : List String) (stmt : String) : Except SqlError (List String) :=
  if stmt = "BOOM" ∨ stmt = "CRASH" then
    Except.error { code := "ER_PARSE_ERROR", message := "You have an error in your SQL syntax" }
  else if stmt = "DUP" then
    Except.error { code := "ER_DUP_FIELDNAME", message := "Duplicate column name 'a'" }
  else Except.ok (schema ++ [stmt])

/-- The concrete test database packaged as a `DbModel`. -/
def demoModel : DbModel (List String) :=
  { exec := demoExec }

/-- Concatenation of the character data of a list of strings, used to relate
the splitter's output back to its input text. -/
def joinData : List String → List Char
  | [] => []
  | s :: rest => s.data ++ joinData rest

/-- Whether a character list contains the block-comment terminator `*/`
as two adjacent characters. -/
def hasStarSlash : List Char → Bool
  | [] => false
  | c :: rest => if c = '*' ∧ rest.head? = some '/' then true else hasStarSlash rest

/-- JS `statements.join(';')`: the produced statements re-joined with a `;`
separator. -/
def joinSemi : List String → String
  | [] => ""
  | [e] => e
  | e :: rest => e ++ ";" ++ joinSemi rest

/-- A statement is self-contained when re-scanning it alone re-accumulates
exactly its own text, with no statement pushed on the way and no quote or
comment state left open at the end. The splitter's outputs have this shape
except in edge cases (e.g. a backslash whose quote was separated from it by
a comment). -/
def SelfContained (e : String) : Prop :=
  splitLoop none e.data initState =
    { statements := [], current := e.data, inSingle := false, inDouble := false,
      inBacktick := false, inLineComment := false, inBlockComment := false }

instance (e : String) : Decidable (SelfContained e) := by
  unfold SelfContained
  infer_instance

end Migrate


namespace Migrate

theorem trimChars_sublist (l : List Char) : List.Sublist (trimChars l) l := by
  have hpre := List.rdropWhile_prefix isWsChar (l.dropWhile isWsChar)
  exact hpre.sublist.trans (List.dropWhile_sublist _)

theorem dropWhile_rdropWhile_dropWhile (l : List Char) :
    List.dropWhile isWsChar ((l.dropWhile isWsChar).rdropWhile isWsChar) =
      (l.dropWhile isWsChar).rdropWhile isWsChar := by
  rw [List.dropWhile_eq_self_iff]
  intro hl hp
  have hpre := List.rdropWhile_prefix isWsChar (l.dropWhile isWsChar)
  have hl2 : 0 < (l.dropWhile isWsChar).length := lt_of_lt_of_le hl hpre.length_le
  apply List.dropWhile_get_zero_not isWsChar l hl2
  have heq := hpre.getElem hl
  simp only [List.get_eq_getElem]
  rw [← heq]
  exact hp

theorem trimChars_idem (l : List Char) : trimChars (trimChars l) = trimChars l := by
  unfold trimChars
  rw [dropWhile_rdropWhile_dropWhile, List.rdropWhile_idempotent]

theorem pushCurrent_statements_append (st : SplitState) (ss : List String) :
    pushCurrent { st with statements := ss ++ st.statements } = ss ++ pushCurrent st := by
  unfold pushCurrent
  split <;> simp

theorem quoteToggles_statements (prev : Option Char) (c : Char) (st : SplitState)
    (ss : List String) :
    quoteToggles prev c { st with statements := ss } = quoteToggles prev c st := rfl

theorem normalStepState_statements_append (prev : Option Char) (c : Char)
    (st : SplitState) (ss : List String) :
    normalStepState prev c { st with statements := ss ++ st.statements } =
      { normalStepState prev c st with
          statements := ss ++ (normalStepState prev c st).statements } := by
  simp only [normalStepState, quoteToggles_statements]
  split
  · simp [pushCurrent_statements_append]
  · simp

end Migrate

namespace Migrate

theorem splitLoop_nil (prev : Option Char) (st : SplitState) :
    splitLoop prev [] st = st := rfl

theorem splitLoop_line_nl (prev : Option Char) (rest : List Char) (st : SplitState)
    (h : st.inLineComment = true) :
    splitLoop prev ('\n' :: rest) st =
      splitLoop (some '\n') rest
        { st with inLineComment := false, current := st.current ++ ['\n'] } := by
  rw [splitLoop.eq_def]
  simp [h]

theorem splitLoop_line_skip (prev : Option Char) (c : Char) (rest : List Char)
    (st : SplitState) (h : st.inLineComment = true) (hc : c ≠ '\n') :
    splitLoop prev (c :: rest) st = splitLoop (some c) rest st := by
  rw [splitLoop.eq_def]
  simp [h, hc]

theorem splitLoop_block_end (prev : Option Char) (rest2 : List Char) (st : SplitState)
    (h1 : st.inLineComment = false) (h2 : st.inBlockComment = true) :
    splitLoop prev ('*' :: '/' :: rest2) st =
      splitLoop (some '/') rest2 { st with inBlockComment := false } := by
  rw [splitLoop.eq_def]
  simp [h1, h2]

theorem splitLoop_block_skip (prev : Option Char) (c : Char) (rest : List Char)
    (st : SplitState) (h1 : st.inLineComment = false) (h2 : st.inBlockComment = true)
    (hne : ¬(c = '*' ∧ rest.head? = some '/')) :
    splitLoop prev (c :: rest) st = splitLoop (some c) rest st := by
  cases rest with
  | nil =>
    rw [splitLoop.eq_def, splitLoop_nil]
    simp [h1, h2]
  | cons r1 rest2 =>
    rw [splitLoop.eq_def]
    simp only [List.head?_cons, Option.some.injEq] at hne
    simp [h1, h2, hne]

theorem splitLoop_line_start (prev : Option Char) (rest2 : List Char) (st : SplitState)
    (h1 : st.inLineComment = false) (h2 : st.inBlockComment = false)
    (hq : st.inSingle = false ∧ st.inDouble = false ∧ st.inBacktick = false) :
    splitLoop prev ('-' :: '-' :: rest2) st =
      splitLoop (some '-') rest2 { st with inLineComment := true } := by
  rw [splitLoop.eq_def]
  simp [h1, h2, hq.1, hq.2.1, hq.2.2]

theorem splitLoop_block_start (prev : Option Char) (rest2 : List Char) (st : SplitState)
    (h1 : st.inLineComment = false) (h2 : st.inBlockComment = false)
    (hq : st.inSingle = false ∧ st.inDouble = false ∧ st.inBacktick = false) :
    splitLoop prev ('/' :: '*' :: rest2) st =
      splitLoop (some '*') rest2 { st with inBlockComment := true } := by
  rw [splitLoop.eq_def]
  simp [h1, h2, hq.1, hq.2.1, hq.2.2]

theorem splitLoop_normal (prev : Option Char) (c : Char) (rest : List Char)
    (st : SplitState) (h1 : st.inLineComment = false) (h2 : st.inBlockComment = false)
    (hc1 : ¬(st.inSingle = false ∧ st.inDouble = false ∧ st.inBacktick = false ∧
        c = '-' ∧ rest.head? = some '-'))
    (hc2 : ¬(st.inSingle = false ∧ st.inDouble = false ∧ st.inBacktick = false ∧
        c = '/' ∧ rest.head? = some '*')) :
    splitLoop prev (c :: rest) st = splitLoop (some c) rest (normalStepState prev c st) := by
  cases rest with
  | nil =>
    rw [splitLoop.eq_def, splitLoop_nil]
    simp [h1, h2]
  | cons r1 rest2 =>
    rw [splitLoop.eq_def]
    simp only [List.head?_cons, Option.some.injEq] at hc1 hc2
    simp [h1, h2, hc1, hc2]

end Migrate

namespace Migrate

theorem quoteToggles_congr (prev1 prev2 : Option Char) (c : Char) (st : SplitState)
    (h : (prev1 = some '\\' ↔ prev2 = some '\\') ∨ (c ≠ '\'' ∧ c ≠ '"' ∧ c ≠ '`')) :
    quoteToggles prev1 c st = quoteToggles prev2 c st := by
  unfold quoteToggles
  rcases h with h | ⟨h1, h2, h3⟩
  · have h' : (prev1 ≠ some '\\') ↔ (prev2 ≠ some '\\') := not_congr h
    simp only [h']
  · simp [h1, h2, h3]

theorem normalStepState_congr (prev1 prev2 : Option Char) (c : Char) (st : SplitState)
    (h : (prev1 = some '\\' ↔ prev2 = some '\\') ∨ (c ≠ '\'' ∧ c ≠ '"' ∧ c ≠ '`')) :
    normalStepState prev1 c st = normalStepState prev2 c st := by
  unfold normalStepState
  rw [quoteToggles_congr prev1 prev2 c st h]

theorem splitLoop_prev_congr (prev1 prev2 : Option Char) (c : Char) (rest : List Char)
    (st : SplitState)
    (h : (prev1 = some '\\' ↔ prev2 = some '\\') ∨ (c ≠ '\'' ∧ c ≠ '"' ∧ c ≠ '`')) :
    splitLoop prev1 (c :: rest) st = splitLoop prev2 (c :: rest) st := by
  have hns := normalStepState_congr prev1 prev2 c st h
  conv_lhs => rw [splitLoop.eq_def]
  conv_rhs => rw [splitLoop.eq_def]
  simp only [hns]

end Migrate

namespace Migrate

theorem splitLoop_append_semi (ys : List Char) (prev : Option Char) (cs : List Char)
    (st : SplitState)
    (h : (splitLoop prev cs st).inBlockComment = false) :
    splitLoop prev (cs ++ ';' :: ys) st =
      splitLoop none (';' :: ys) (splitLoop prev cs st) := by
  induction prev, cs, st using splitLoop.induct with
  | case1 prev st =>
    rw [splitLoop_nil, List.nil_append]
    exact splitLoop_prev_congr prev none ';' ys st (Or.inr (by decide))
  | case2 prev st rest hline ih =>
    rw [List.cons_append]
    rw [splitLoop_line_nl prev _ st hline] at h ⊢
    rw [splitLoop_line_nl prev rest st hline]
    exact ih h
  | case3 prev st c rest hline hc ih =>
    rw [List.cons_append]
    rw [splitLoop_line_skip prev c _ st hline hc] at h ⊢
    rw [splitLoop_line_skip prev c rest st hline hc]
    exact ih h
  | case4 prev st c hnl hbl r1 rest2 hcr ih =>
    obtain ⟨hc, hr⟩ := hcr
    subst hc hr
    simp only [Bool.not_eq_true] at hnl
    rw [List.cons_append, List.cons_append]
    rw [splitLoop_block_end prev _ st hnl hbl] at h ⊢
    rw [splitLoop_block_end prev rest2 st hnl hbl]
    exact ih h
  | case5 prev st c hnl hbl r1 rest2 hcr ih =>
    simp only [Bool.not_eq_true] at hnl
    have hne : ¬(c = '*' ∧ (r1 :: rest2).head? = some '/') := by
      simpa using hcr
    have hne2 : ¬(c = '*' ∧ ((r1 :: rest2) ++ ';' :: ys).head? = some '/') := by
      simpa using hcr
    rw [List.cons_append]
    rw [splitLoop_block_skip prev c ((r1 :: rest2) ++ ';' :: ys) st hnl hbl hne2]
    rw [splitLoop_block_skip prev c (r1 :: rest2) st hnl hbl hne] at h ⊢
    exact ih h
  | case6 prev st c hnl hbl =>
    simp only [Bool.not_eq_true] at hnl
    rw [splitLoop_block_skip prev c [] st hnl hbl (by simp), splitLoop_nil] at h
    rw [h] at hbl
    exact absurd hbl (by simp)
  | case7 prev st c hnl hbl r1 rest2 hcond ih =>
    simp only [Bool.not_eq_true] at hnl hbl
    obtain ⟨hs, hd, hb, hc, hr⟩ := hcond
    subst hc hr
    rw [List.cons_append, List.cons_append]
    rw [splitLoop_line_start prev _ st hnl hbl ⟨hs, hd, hb⟩] at h ⊢
    rw [splitLoop_line_start prev rest2 st hnl hbl ⟨hs, hd, hb⟩]
    exact ih h
  | case8 prev st c hnl hbl r1 rest2 hc1 hcond ih =>
    simp only [Bool.not_eq_true] at hnl hbl
    obtain ⟨hs, hd, hb, hc, hr⟩ := hcond
    subst hc hr
    rw [List.cons_append, List.cons_append]
    rw [splitLoop_block_start prev _ st hnl hbl ⟨hs, hd, hb⟩] at h ⊢
    rw [splitLoop_block_start prev rest2 st hnl hbl ⟨hs, hd, hb⟩]
    exact ih h
  | case9 prev st c hnl hbl r1 rest2 hc1 hc2 ih =>
    simp only [Bool.not_eq_true] at hnl hbl
    have hc1' : ¬(st.inSingle = false ∧ st.inDouble = false ∧ st.inBacktick = false ∧
        c = '-' ∧ (r1 :: rest2).head? = some '-') := by simpa using hc1
    have hc2' : ¬(st.inSingle = false ∧ st.inDouble = false ∧ st.inBacktick = false ∧
        c = '/' ∧ (r1 :: rest2).head? = some '*') := by simpa using hc2
    have hc1'' : ¬(st.inSingle = false ∧ st.inDouble = false ∧ st.inBacktick = false ∧
        c = '-' ∧ ((r1 :: rest2) ++ ';' :: ys).head? = some '-') := by simpa using hc1
    have hc2'' : ¬(st.inSingle = false ∧ st.inDouble = false ∧ st.inBacktick = false ∧
        c = '/' ∧ ((r1 :: rest2) ++ ';' :: ys).head? = some '*') := by simpa using hc2
    rw [List.cons_append]
    rw [splitLoop_normal prev c ((r1 :: rest2) ++ ';' :: ys) st hnl hbl hc1'' hc2'']
    rw [splitLoop_normal prev c (r1 :: rest2) st hnl hbl hc1' hc2'] at h ⊢
    exact ih h
  | case10 prev st c hnl hbl =>
    simp only [Bool.not_eq_true] at hnl hbl
    rw [List.singleton_append]
    rw [splitLoop_normal prev c [] st hnl hbl (by simp) (by simp), splitLoop_nil]
    rw [splitLoop_normal prev c (';' :: ys) st hnl hbl (by simp) (by simp)]
    exact splitLoop_prev_congr (some c) none ';' ys (normalStepState prev c st)
      (Or.inr (by decide))

end Migrate

namespace Migrate

theorem normalStepState_spec (prev : Option Char) (c : Char) (st : SplitState) :
    ((normalStepState prev c st).statements = pushCurrent st ∧
      (normalStepState prev c st).current = []) ∨
    ((normalStepState prev c st).statements = st.statements ∧
      (normalStepState prev c st).current = st.current ++ [c]) := by
  by_cases hx : (quoteToggles prev c st).1 = false ∧ (quoteToggles prev c st).2.1 = false ∧
      (quoteToggles prev c st).2.2 = false ∧ c = ';'
  · obtain ⟨h1, h2, h3, hc⟩ := hx
    subst hc
    left
    constructor <;> simp [normalStepState, h1, h2, h3]
  · right
    constructor <;> simp [normalStepState, hx]

theorem splitLoop_statements_append (ss : List String) (prev : Option Char)
    (cs : List Char) (st : SplitState) :
    splitLoop prev cs { st with statements := ss ++ st.statements } =
      { splitLoop prev cs st with
          statements := ss ++ (splitLoop prev cs st).statements } := by
  induction prev, cs, st using splitLoop.induct with
  | case1 prev st => rw [splitLoop_nil, splitLoop_nil]
  | case2 prev st rest h ih =>
    rw [splitLoop_line_nl prev rest { st with statements := ss ++ st.statements } h]
    rw [splitLoop_line_nl prev rest st h]
    exact ih
  | case3 prev st c rest h hc ih =>
    rw [splitLoop_line_skip prev c rest { st with statements := ss ++ st.statements } h hc]
    rw [splitLoop_line_skip prev c rest st h hc]
    exact ih
  | case4 prev st c hnl hbl r1 rest2 hcr ih =>
    obtain ⟨hc, hr⟩ := hcr
    subst hc hr
    simp only [Bool.not_eq_true] at hnl
    rw [splitLoop_block_end prev rest2 { st with statements := ss ++ st.statements } hnl hbl]
    rw [splitLoop_block_end prev rest2 st hnl hbl]
    exact ih
  | case5 prev st c hnl hbl r1 rest2 hcr ih =>
    simp only [Bool.not_eq_true] at hnl
    have hne : ¬(c = '*' ∧ (r1 :: rest2).head? = some '/') := by simpa using hcr
    rw [splitLoop_block_skip prev c (r1 :: rest2)
      { st with statements := ss ++ st.statements } hnl hbl hne]
    rw [splitLoop_block_skip prev c (r1 :: rest2) st hnl hbl hne]
    exact ih
  | case6 prev st c hnl hbl =>
    simp only [Bool.not_eq_true] at hnl
    rw [splitLoop_block_skip prev c [] { st with statements := ss ++ st.statements } hnl hbl
      (by simp)]
    rw [splitLoop_block_skip prev c [] st hnl hbl (by simp), splitLoop_nil, splitLoop_nil]
  | case7 prev st c hnl hbl r1 rest2 hcond ih =>
    simp only [Bool.not_eq_true] at hnl hbl
    obtain ⟨hs, hd, hb, hc, hr⟩ := hcond
    subst hc hr
    rw [splitLoop_line_start prev rest2 { st with statements := ss ++ st.statements } hnl hbl
      ⟨hs, hd, hb⟩]
    rw [splitLoop_line_start prev rest2 st hnl hbl ⟨hs, hd, hb⟩]
    exact ih
  | case8 prev st c hnl hbl r1 rest2 hc1 hcond ih =>
    simp only [Bool.not_eq_true] at hnl hbl
    obtain ⟨hs, hd, hb, hc, hr⟩ := hcond
    subst hc hr
    rw [splitLoop_block_start prev rest2 { st with statements := ss ++ st.statements } hnl hbl
      ⟨hs, hd, hb⟩]
    rw [splitLoop_block_start prev rest2 st hnl hbl ⟨hs, hd, hb⟩]
    exact ih
  | case9 prev st c hnl hbl r1 rest2 hc1 hc2 ih =>
    simp only [Bool.not_eq_true] at hnl hbl
    have hc1' : ¬(st.inSingle = false ∧ st.inDouble = false ∧ st.inBacktick = false ∧
        c = '-' ∧ (r1 :: rest2).head? = some '-') := by simpa using hc1
    have hc2' : ¬(st.inSingle = false ∧ st.inDouble = false ∧ st.inBacktick = false ∧
        c = '/' ∧ (r1 :: rest2).head? = some '*') := by simpa using hc2
    rw [splitLoop_normal prev c (r1 :: rest2) { st with statements := ss ++ st.statements }
      hnl hbl hc1' hc2']
    rw [splitLoop_normal prev c (r1 :: rest2) st hnl hbl hc1' hc2',
      normalStepState_statements_append]
    exact ih
  | case10 prev st c hnl hbl =>
    simp only [Bool.not_eq_true] at hnl hbl
    rw [splitLoop_normal prev c [] { st with statements := ss ++ st.statements } hnl hbl
      (by simp) (by simp)]
    rw [splitLoop_normal prev c [] st hnl hbl (by simp) (by simp),
      splitLoop_nil, splitLoop_nil]
    exact normalStepState_statements_append prev c st ss

end Migrate

namespace Migrate

theorem pushCurrent_invariant (st : SplitState)
    (h : ∀ e ∈ st.statements, e ≠ "" ∧ strTrim e = e) :
    ∀ e ∈ pushCurrent st, e ≠ "" ∧ strTrim e = e := by
  unfold pushCurrent
  split_ifs with hc
  · exact h
  · intro e he
    rcases List.mem_append.1 he with he | he
    · exact h e he
    · rw [List.mem_singleton] at he
      subst he
      refine ⟨?_, ?_⟩
      · intro hcon
        apply hc
        have hdata := congrArg String.data hcon
        simpa using hdata
      · unfold strTrim
        simp [trimChars_idem]

theorem normalStepState_invariant (prev : Option Char) (c : Char) (st : SplitState)
    (h : ∀ e ∈ st.statements, e ≠ "" ∧ strTrim e = e) :
    ∀ e ∈ (normalStepState prev c st).statements, e ≠ "" ∧ strTrim e = e := by
  rcases normalStepState_spec prev c st with ⟨hs, _⟩ | ⟨hs, _⟩
  · rw [hs]
    exact pushCurrent_invariant st h
  · rw [hs]
    exact h

theorem splitLoop_statements_invariant (prev : Option Char) (cs : List Char)
    (st : SplitState) (h : ∀ e ∈ st.statements, e ≠ "" ∧ strTrim e = e) :
    ∀ e ∈ (splitLoop prev cs st).statements, e ≠ "" ∧ strTrim e = e := by
  induction prev, cs, st using splitLoop.induct with
  | case1 prev st => exact h
  | case2 prev st rest hline ih =>
    rw [splitLoop_line_nl prev rest st hline]
    exact ih h
  | case3 prev st c rest hline hc ih =>
    rw [splitLoop_line_skip prev c rest st hline hc]
    exact ih h
  | case4 prev st c hnl hbl r1 rest2 hcr ih =>
    obtain ⟨hc, hr⟩ := hcr
    subst hc hr
    simp only [Bool.not_eq_true] at hnl
    rw [splitLoop_block_end prev rest2 st hnl hbl]
    exact ih h
  | case5 prev st c hnl hbl r1 rest2 hcr ih =>
    simp only [Bool.not_eq_true] at hnl
    rw [splitLoop_block_skip prev c (r1 :: rest2) st hnl hbl (by simpa using hcr)]
    exact ih h
  | case6 prev st c hnl hbl =>
    simp only [Bool.not_eq_true] at hnl
    rw [splitLoop_block_skip prev c [] st hnl hbl (by simp), splitLoop_nil]
    exact h
  | case7 prev st c hnl hbl r1 rest2 hcond ih =>
    simp only [Bool.not_eq_true] at hnl hbl
    obtain ⟨hs, hd, hb, hc, hr⟩ := hcond
    subst hc hr
    rw [splitLoop_line_start prev rest2 st hnl hbl ⟨hs, hd, hb⟩]
    exact ih h
  | case8 prev st c hnl hbl r1 rest2 hc1 hcond ih =>
    simp only [Bool.not_eq_true] at hnl hbl
    obtain ⟨hs, hd, hb, hc, hr⟩ := hcond
    subst hc hr
    rw [splitLoop_block_start prev rest2 st hnl hbl ⟨hs, hd, hb⟩]
    exact ih h
  | case9 prev st c hnl hbl r1 rest2 hc1 hc2 ih =>
    simp only [Bool.not_eq_true] at hnl hbl
    rw [splitLoop_normal prev c (r1 :: rest2) st hnl hbl (by simpa using hc1)
      (by simpa using hc2)]
    exact ih (normalStepState_invariant prev c st h)
  | case10 prev st c hnl hbl =>
    simp only [Bool.not_eq_true] at hnl hbl
    rw [splitLoop_normal prev c [] st hnl hbl (by simp) (by simp), splitLoop_nil]
    exact normalStepState_invariant prev c st h

theorem splitSqlStatements_mem (s : String) :
    ∀ e ∈ splitSqlStatements s, e ≠ "" ∧ strTrim e = e := by
  unfold splitSqlStatements
  refine pushCurrent_invariant _ (splitLoop_statements_invariant none s.data initState ?_)
  intro e he
  simp [initState] at he

end Migrate

namespace Migrate

theorem joinData_append (a b : List String) :
    joinData (a ++ b) = joinData a ++ joinData b := by
  induction a with
  | nil => simp [joinData]
  | cons x xs ih => simp [joinData, ih]

theorem joinData_pushCurrent (st : SplitState) :
    List.Sublist (joinData (pushCurrent st)) (joinData st.statements ++ st.current) := by
  unfold pushCurrent
  split_ifs with hc
  · exact List.sublist_append_left _ _
  · rw [joinData_append]
    refine List.Sublist.append_left ?_ _
    simpa [joinData] using trimChars_sublist st.current

theorem splitLoop_joinData_sublist (prev : Option Char) (cs : List Char)
    (st : SplitState) :
    List.Sublist
      (joinData (splitLoop prev cs st).statements ++ (splitLoop prev cs st).current)
      ((joinData st.statements ++ st.current) ++ cs) := by
  induction prev, cs, st using splitLoop.induct with
  | case1 prev st =>
    rw [splitLoop_nil, List.append_nil]
  | case2 prev st rest hline ih =>
    rw [splitLoop_line_nl prev rest st hline]
    refine ih.trans ?_
    simp
  | case3 prev st c rest hline hc ih =>
    rw [splitLoop_line_skip prev c rest st hline hc]
    exact ih.trans (List.Sublist.append_left (List.sublist_cons_self c rest) _)
  | case4 prev st c hnl hbl r1 rest2 hcr ih =>
    obtain ⟨hc, hr⟩ := hcr
    subst hc hr
    simp only [Bool.not_eq_true] at hnl
    rw [splitLoop_block_end prev rest2 st hnl hbl]
    exact ih.trans (List.Sublist.append_left
      ((List.sublist_cons_self '/' rest2).trans (List.sublist_cons_self '*' _)) _)
  | case5 prev st c hnl hbl r1 rest2 hcr ih =>
    simp only [Bool.not_eq_true] at hnl
    rw [splitLoop_block_skip prev c (r1 :: rest2) st hnl hbl (by simpa using hcr)]
    exact ih.trans (List.Sublist.append_left (List.sublist_cons_self c _) _)
  | case6 prev st c hnl hbl =>
    simp only [Bool.not_eq_true] at hnl
    rw [splitLoop_block_skip prev c [] st hnl hbl (by simp), splitLoop_nil]
    exact List.sublist_append_left _ _
  | case7 prev st c hnl hbl r1 rest2 hcond ih =>
    simp only [Bool.not_eq_true] at hnl hbl
    obtain ⟨hs, hd, hb, hc, hr⟩ := hcond
    subst hc hr
    rw [splitLoop_line_start prev rest2 st hnl hbl ⟨hs, hd, hb⟩]
    exact ih.trans (List.Sublist.append_left
      ((List.sublist_cons_self '-' rest2).trans (List.sublist_cons_self '-' _)) _)
  | case8 prev st c hnl hbl r1 rest2 hc1 hcond ih =>
    simp only [Bool.not_eq_true] at hnl hbl
    obtain ⟨hs, hd, hb, hc, hr⟩ := hcond
    subst hc hr
    rw [splitLoop_block_start prev rest2 st hnl hbl ⟨hs, hd, hb⟩]
    exact ih.trans (List.Sublist.append_left
      ((List.sublist_cons_self '*' rest2).trans (List.sublist_cons_self '/' _)) _)
  | case9 prev st c hnl hbl r1 rest2 hc1 hc2 ih =>
    simp only [Bool.not_eq_true] at hnl hbl
    rw [splitLoop_normal prev c (r1 :: rest2) st hnl hbl (by simpa using hc1)
      (by simpa using hc2)]
    refine ih.trans ?_
    rcases normalStepState_spec prev c st with ⟨h1, h2⟩ | ⟨h1, h2⟩
    · rw [h1, h2, List.append_nil]
      exact List.Sublist.append (joinData_pushCurrent st)
        (List.sublist_cons_self c _)
    · rw [h1, h2]
      simp
  | case10 prev st c hnl hbl =>
    simp only [Bool.not_eq_true] at hnl hbl
    rw [splitLoop_normal prev c [] st hnl hbl (by simp) (by simp), splitLoop_nil]
    rcases normalStepState_spec prev c st with ⟨h1, h2⟩ | ⟨h1, h2⟩
    · rw [h1, h2, List.append_nil]
      exact (joinData_pushCurrent st).trans (List.sublist_append_left _ _)
    · rw [h1, h2]
      simp

theorem splitSqlStatements_joinData_sublist (s : String) :
    List.Sublist (joinData (splitSqlStatements s)) s.data := by
  have h1 := joinData_pushCurrent (splitLoop none s.data initState)
  have h2 := splitLoop_joinData_sublist none s.data initState
  simp only [initState, joinData, List.nil_append, List.append_nil] at h2
  have h3 : List.Sublist
      (joinData (splitLoop none s.data initState).statements ++
        (splitLoop none s.data initState).current) s.data := h2
  unfold splitSqlStatements
  exact h1.trans h3

end Migrate

namespace Migrate

theorem splitLoop_prev_irrelevant (prev1 prev2 : Option Char) (cs : List Char)
    (st : SplitState) (h : prev1 = some '\\' ↔ prev2 = some '\\') :
    splitLoop prev1 cs st = splitLoop prev2 cs st := by
  cases cs with
  | nil => rfl
  | cons c rest => exact splitLoop_prev_congr prev1 prev2 c rest st (Or.inl h)

theorem joinSemi_cons₂ (e f : String) (L : List String) :
    (joinSemi (e :: f :: L)).data = e.data ++ ';' :: (joinSemi (f :: L)).data := by
  show (e ++ ";" ++ joinSemi (f :: L)).data = _
  simp

theorem splitSqlStatements_single (e : String) (hsc : SelfContained e)
    (hne : e ≠ "") (htr : strTrim e = e) : splitSqlStatements e = [e] := by
  have htrim : trimChars e.data = e.data := congrArg String.data htr
  have hdne : e.data ≠ [] := by
    intro hcon
    apply hne
    cases e
    simp at hcon
    rw [hcon]
  unfold splitSqlStatements
  rw [hsc]
  unfold pushCurrent
  simp only [htrim]
  rw [if_neg hdne]
  rfl

theorem splitSql_joinSemi_cons (e f : String) (L : List String)
    (hsc : SelfContained e) (hne : e ≠ "") (htr : strTrim e = e) :
    splitSqlStatements (joinSemi (e :: f :: L)) =
      e :: splitSqlStatements (joinSemi (f :: L)) := by
  have htrim : trimChars e.data = e.data := congrArg String.data htr
  have hdne : e.data ≠ [] := by
    intro hcon
    apply hne
    cases e
    simp at hcon
    rw [hcon]
  unfold splitSqlStatements
  rw [joinSemi_cons₂]
  rw [splitLoop_append_semi _ none e.data initState (by rw [hsc])]
  rw [hsc]
  set ys := (joinSemi (f :: L)).data with hys
  have hstep : splitLoop none (';' :: ys)
      ({ statements := [], current := e.data, inSingle := false, inDouble := false,
         inBacktick := false, inLineComment := false, inBlockComment := false } : SplitState) =
      splitLoop (some ';') ys
        { initState with statements := [String.mk e.data] ++ initState.statements } := by
    rw [splitLoop_normal none ';' ys _ rfl rfl (by simp) (by simp)]
    congr 1
    simp [normalStepState, quoteToggles, pushCurrent, htrim, hdne, initState]
  rw [hstep]
  rw [splitLoop_statements_append [String.mk e.data] (some ';') ys initState]
  rw [pushCurrent_statements_append (splitLoop (some ';') ys initState) [String.mk e.data]]
  rw [splitLoop_prev_irrelevant (some ';') none ys initState (by simp)]
  have hmk : String.mk e.data = e := by
    cases e
    rfl
  rw [hmk]
  rfl

theorem splitSql_joinSemi (L : List String)
    (h : ∀ e ∈ L, SelfContained e ∧ e ≠ "" ∧ strTrim e = e) :
    splitSqlStatements (joinSemi L) = L := by
  induction L with
  | nil => decide
  | cons e rest ih =>
    cases rest with
    | nil =>
      obtain ⟨hsc, hne, htr⟩ := h e (by simp)
      exact splitSqlStatements_single e hsc hne htr
    | cons f L =>
      obtain ⟨hsc, hne, htr⟩ := h e (by simp)
      rw [splitSql_joinSemi_cons e f L hsc hne htr]
      rw [ih (fun x hx => h x (by simp [hx]))]

end Migrate

namespace Migrate

theorem insertIgnore_mem_self (ledger : List String) (name : String) :
    name ∈ insertIgnore ledger name := by
  unfold insertIgnore
  split_ifs with h
  · exact h
  · simp

theorem insertIgnore_mem_mono (ledger : List String) (name x : String)
    (h : x ∈ ledger) : x ∈ insertIgnore ledger name := by
  unfold insertIgnore
  split_ifs <;> simp [h]

theorem insertIgnore_nodup (ledger : List String) (name : String)
    (h : ledger.Nodup) : (insertIgnore ledger name).Nodup := by
  unfold insertIgnore
  split_ifs with hmem
  · exact h
  · simp [List.nodup_append, h, hmem]

theorem applyMigrationFile_spec {δ : Type} (M : DbModel δ) (db : DbState δ)
    (n t : String) :
    (∃ s2 lgs, execStatements M n (splitSqlStatements t) db.schema = (none, s2, lgs) ∧
      applyMigrationFile M db n t =
        { db := { schema := s2, ledger := insertIgnore db.ledger n },
          err := none, logs := lgs ++ [LogEntry.processed n] }) ∨
    (∃ e s2 lgs, execStatements M n (splitSqlStatements t) db.schema = (some e, s2, lgs) ∧
      applyMigrationFile M db n t =
        { db := db, err := some e, logs := lgs ++ [LogEntry.failed n e.message] }) := by
  unfold applyMigrationFile
  rcases h : execStatements M n (splitSqlStatements t) db.schema with ⟨eo, s, l⟩
  cases eo with
  | none => exact Or.inl ⟨s, l, rfl, rfl⟩
  | some e => exact Or.inr ⟨e, s, l, rfl, rfl⟩

theorem applyMigrationFile_fail_db {δ : Type} (M : DbModel δ) (db : DbState δ)
    (n t : String) (e : SqlError)
    (h : (applyMigrationFile M db n t).err = some e) :
    (applyMigrationFile M db n t).db = db := by
  rcases applyMigrationFile_spec M db n t with ⟨s2, lgs, _, heq⟩ | ⟨e', s2, lgs, _, heq⟩
  · rw [heq] at h
    simp at h
  · rw [heq]

theorem applyMigrationFile_ok_ledger {δ : Type} (M : DbModel δ) (db : DbState δ)
    (n t : String) (h : (applyMigrationFile M db n t).err = none) :
    (applyMigrationFile M db n t).db.ledger = insertIgnore db.ledger n := by
  rcases applyMigrationFile_spec M db n t with ⟨s2, lgs, _, heq⟩ | ⟨e', s2, lgs, _, heq⟩
  · rw [heq]
  · rw [heq] at h
    simp at h

theorem processedNames_cons_skipping (a b : String) (l : List LogEntry) :
    processedNames (LogEntry.skipping a b :: l) = processedNames l := rfl

theorem execStatements_processedNames {δ : Type} (M : DbModel δ) (n : String)
    (stmts : List String) (schema : δ) :
    processedNames (execStatements M n stmts schema).2.2 = [] := by
  induction stmts generalizing schema with
  | nil => rfl
  | cons stmt rest ih =>
    simp only [execStatements]
    split_ifs with hs
    · exact ih schema
    · rcases hx : M.exec schema stmt with e | s2
      · show processedNames
            (if isToleratedError e = true then
              ((execStatements M n rest schema).1, (execStatements M n rest schema).2.1,
                LogEntry.skipping n (firstLine e.message) ::
                  (execStatements M n rest schema).2.2)
            else (some e, schema, [])).2.2 = []
        split_ifs with ht
        · show processedNames (LogEntry.skipping n (firstLine e.message) ::
            (execStatements M n rest schema).2.2) = []
          rw [processedNames_cons_skipping]
          exact ih schema
        · rfl
      · exact ih s2

theorem processedNames_append (a b : List LogEntry) :
    processedNames (a ++ b) = processedNames a ++ processedNames b := by
  unfold processedNames
  exact List.filterMap_append a b _

end Migrate

namespace Migrate

theorem runFiles_nil {δ : Type} (M : DbModel δ) (applied : List String)
    (db : DbState δ) : runFiles M applied [] db = (none, db, []) := rfl

theorem runFiles_skip {δ : Type} (M : DbModel δ) (applied : List String)
    (name text : String) (rest : List (String × String)) (db : DbState δ)
    (h : name ∈ applied) :
    runFiles M applied ((name, text) :: rest) db = runFiles M applied rest db := by
  simp [runFiles, h]

theorem runFiles_fail {δ : Type} (M : DbModel δ) (applied : List String)
    (name text : String) (rest : List (String × String)) (db : DbState δ)
    (e : SqlError) (hnm : name ∉ applied)
    (hfail : (applyMigrationFile M db name text).err = some e) :
    runFiles M applied ((name, text) :: rest) db =
      (some e, db, (applyMigrationFile M db name text).logs) := by
  simp only [runFiles, if_neg hnm]
  rw [hfail]
  rw [applyMigrationFile_fail_db M db name text e hfail]

theorem runFiles_ok_step {δ : Type} (M : DbModel δ) (applied : List String)
    (name text : String) (rest : List (String × String)) (db : DbState δ)
    (hnm : name ∉ applied)
    (hok : (applyMigrationFile M db name text).err = none) :
    runFiles M applied ((name, text) :: rest) db =
      ((runFiles M applied rest (applyMigrationFile M db name text).db).1,
       (runFiles M applied rest (applyMigrationFile M db name text).db).2.1,
       (applyMigrationFile M db name text).logs ++
         (runFiles M applied rest (applyMigrationFile M db name text).db).2.2) := by
  simp only [runFiles, if_neg hnm]
  rw [hok]

theorem runFiles_ledger_mono {δ : Type} (M : DbModel δ) (applied : List String)
    (files : List (String × String)) (db : DbState δ) (x : String)
    (h : x ∈ db.ledger) : x ∈ (runFiles M applied files db).2.1.ledger := by
  induction files generalizing db with
  | nil => exact h
  | cons p rest ih =>
    rcases p with ⟨name, text⟩
    by_cases hnm : name ∈ applied
    · rw [runFiles_skip M applied name text rest db hnm]
      exact ih db h
    · rcases he : (applyMigrationFile M db name text).err with _ | e
      · rw [runFiles_ok_step M applied name text rest db hnm he]
        refine ih _ ?_
        rw [applyMigrationFile_ok_ledger M db name text he]
        exact insertIgnore_mem_mono db.ledger name x h
      · rw [runFiles_fail M applied name text rest db e hnm he]
        exact h

theorem runFiles_ledger_nodup {δ : Type} (M : DbModel δ) (applied : List String)
    (files : List (String × String)) (db : DbState δ)
    (h : db.ledger.Nodup) : (runFiles M applied files db).2.1.ledger.Nodup := by
  induction files generalizing db with
  | nil => exact h
  | cons p rest ih =>
    rcases p with ⟨name, text⟩
    by_cases hnm : name ∈ applied
    · rw [runFiles_skip M applied name text rest db hnm]
      exact ih db h
    · rcases he : (applyMigrationFile M db name text).err with _ | e
      · rw [runFiles_ok_step M applied name text rest db hnm he]
        refine ih _ ?_
        rw [applyMigrationFile_ok_ledger M db name text he]
        exact insertIgnore_nodup db.ledger name h
      · rw [runFiles_fail M applied name text rest db e hnm he]
        exact h

theorem runFiles_none_mem {δ : Type} (M : DbModel δ) (applied : List String)
    (files : List (String × String)) (db : DbState δ) (db' : DbState δ)
    (lgs : List LogEntry) (h : runFiles M applied files db = (none, db', lgs))
    (hsub : ∀ x ∈ applied, x ∈ db.ledger) :
    ∀ p ∈ files, p.1 ∈ db'.ledger := by
  induction files generalizing db lgs with
  | nil => intro p hp; simp at hp
  | cons q rest ih =>
    rcases q with ⟨name, text⟩
    intro p hp
    by_cases hnm : name ∈ applied
    · rw [runFiles_skip M applied name text rest db hnm] at h
      rcases List.mem_cons.1 hp with hp | hp
      · subst hp
        have hx : name ∈ db.ledger := hsub name hnm
        have := runFiles_ledger_mono M applied rest db name hx
        rw [h] at this
        exact this
      · exact ih db lgs h hsub p hp
    · rcases he : (applyMigrationFile M db name text).err with _ | e
      · rw [runFiles_ok_step M applied name text rest db hnm he] at h
        have h1 : (runFiles M applied rest (applyMigrationFile M db name text).db).1 =
            none := congrArg Prod.fst h
        have h2 : (runFiles M applied rest (applyMigrationFile M db name text).db).2.1 =
            db' := congrArg (fun z => z.2.1) h
        have hrun : runFiles M applied rest (applyMigrationFile M db name text).db =
            (none, db', (runFiles M applied rest (applyMigrationFile M db name text).db).2.2) := by
          rcases hz : runFiles M applied rest (applyMigrationFile M db name text).db with ⟨a, b, c⟩
          rw [hz] at h1 h2
          simp at h1 h2
          rw [h1, h2]
        have hled : name ∈ (applyMigrationFile M db name text).db.ledger := by
          rw [applyMigrationFile_ok_ledger M db name text he]
          exact insertIgnore_mem_self db.ledger name
        rcases List.mem_cons.1 hp with hp | hp
        · subst hp
          have := runFiles_ledger_mono M applied rest
            (applyMigrationFile M db name text).db name hled
          rw [hrun] at this
          exact this
        · refine ih _ _ hrun ?_ p hp
          intro x hx
          rw [applyMigrationFile_ok_ledger M db name text he]
          exact insertIgnore_mem_mono db.ledger name x (hsub x hx)
      · rw [runFiles_fail M applied name text rest db e hnm he] at h
        simp at h

theorem runFiles_skip_all {δ : Type} (M : DbModel δ) (applied : List String)
    (files : List (String × String)) (db : DbState δ)
    (h : ∀ p ∈ files, p.1 ∈ applied) :
    runFiles M applied files db = (none, db, []) := by
  induction files with
  | nil => rfl
  | cons p rest ih =>
    rcases p with ⟨name, text⟩
    rw [runFiles_skip M applied name text rest db (h (name, text) (by simp))]
    exact ih (fun q hq => h q (by simp [hq]))

theorem runFiles_processedNames {δ : Type} (M : DbModel δ) (applied : List String)
    (files : List (String × String)) (db : DbState δ) (db' : DbState δ)
    (lgs : List LogEntry) (h : runFiles M applied files db = (none, db', lgs)) :
    processedNames lgs =
      (files.filter (fun p => decide (p.1 ∉ applied))).map Prod.fst := by
  induction files generalizing db lgs with
  | nil =>
    rw [runFiles_nil] at h
    simp at h
    rw [h.2]
    rfl
  | cons q rest ih =>
    rcases q with ⟨name, text⟩
    by_cases hnm : name ∈ applied
    · rw [runFiles_skip M applied name text rest db hnm] at h
      rw [List.filter_cons_of_neg (by simpa using hnm)]
      exact ih db lgs h
    · rcases he : (applyMigrationFile M db name text).err with _ | e
      · rw [runFiles_ok_step M applied name text rest db hnm he] at h
        have h2 : lgs = (applyMigrationFile M db name text).logs ++
            (runFiles M applied rest (applyMigrationFile M db name text).db).2.2 :=
          (congrArg (fun z => z.2.2) h).symm
        have hrun : runFiles M applied rest (applyMigrationFile M db name text).db =
            (none, db', (runFiles M applied rest (applyMigrationFile M db name text).db).2.2) := by
          have h1 := congrArg Prod.fst h
          have hmid := congrArg (fun z => z.2.1) h
          rcases hz : runFiles M applied rest (applyMigrationFile M db name text).db with ⟨a, b, c⟩
          rw [hz] at h1 hmid
          simp at h1 hmid
          rw [h1, hmid]
        have hlogs : processedNames (applyMigrationFile M db name text).logs = [name] := by
          rcases applyMigrationFile_spec M db name text with
            ⟨s2, l2, hex, heq⟩ | ⟨e', s2, l2, hex, heq⟩
          · rw [heq]
            show processedNames (l2 ++ [LogEntry.processed name]) = [name]
            rw [processedNames_append]
            have : processedNames l2 = [] := by
              have := execStatements_processedNames M name (splitSqlStatements text) db.schema
              rw [hex] at this
              exact this
            rw [this]
            rfl
          · rw [heq] at he
            simp at he
        rw [h2, processedNames_append, hlogs]
        rw [List.filter_cons_of_pos (by simpa using hnm)]
        rw [ih _ _ hrun]
        rfl
      · rw [runFiles_fail M applied name text rest db e hnm he] at h
        simp at h

end Migrate

namespace Migrate

theorem sortByName_mem (l : List (String × String)) (p : String × String) :
    p ∈ sortByName l ↔ p ∈ l :=
  (List.perm_insertionSort _ l).mem_iff

theorem lexLe_total : ∀ (a b : List Char), lexLe a b = true ∨ lexLe b a = true
  | [], _ => Or.inl rfl
  | _ :: _, [] => Or.inr rfl
  | x :: xs, y :: ys => by
    by_cases hxy : x = y
    · subst hxy
      simp only [lexLe, if_pos rfl]
      exact lexLe_total xs ys
    · rcases lt_or_gt_of_ne hxy with h | h
      · left
        simp [lexLe, hxy, h]
      · right
        simp [lexLe, Ne.symm hxy, h]

theorem lexLe_trans : ∀ (a b c : List Char),
    lexLe a b = true → lexLe b c = true → lexLe a c = true
  | [], _, _ => fun _ _ => rfl
  | x :: xs, [], c => fun h _ => by simp [lexLe] at h
  | x :: xs, y :: ys, [] => fun _ h => by simp [lexLe] at h
  | x :: xs, y :: ys, z :: zs => by
    intro h1 h2
    by_cases hxy : x = y <;> by_cases hyz : y = z
    · subst hxy hyz
      simp only [lexLe, if_pos rfl] at h1 h2 ⊢
      exact lexLe_trans xs ys zs h1 h2
    · subst hxy
      simp only [lexLe, if_pos rfl] at h1
      simp only [lexLe, if_neg hyz] at h2 ⊢
      exact h2
    · subst hyz
      simp only [lexLe, if_neg hxy] at h1 ⊢
      exact h1
    · simp only [lexLe, if_neg hxy] at h1
      simp only [lexLe, if_neg hyz] at h2
      have hlt : x < z := lt_trans (of_decide_eq_true h1) (of_decide_eq_true h2)
      have hxz : x ≠ z := ne_of_lt hlt
      simp [lexLe, hxz, hlt]

theorem lexLe_iff_lex : ∀ (a b : List Char),
    lexLe a b = true ↔ (a = b ∨ List.Lex (· < ·) a b)
  | [], [] => by simp [lexLe]
  | [], y :: ys => by
    simp only [lexLe, true_iff]
    exact Or.inr List.Lex.nil
  | x :: xs, [] => by
    simp [lexLe]
  | x :: xs, y :: ys => by
    by_cases hxy : x = y
    · subst hxy
      simp only [lexLe, eq_self_iff_true, if_true]
      rw [lexLe_iff_lex xs ys]
      constructor
      · rintro (rfl | h)
        · exact Or.inl rfl
        · exact Or.inr (List.Lex.cons h)
      · rintro (h | h)
        · simp at h
          exact Or.inl h
        · exact Or.inr (List.Lex.cons_iff.1 h)
    · simp only [lexLe, if_neg hxy, decide_eq_true_eq]
      constructor
      · intro h
        exact Or.inr (List.Lex.rel h)
      · rintro (h | h)
        · simp at h
          exact absurd h.1 hxy
        · cases h with
          | cons h => exact absurd rfl hxy
          | rel h => exact h

theorem sortByName_sorted (l : List (String × String)) :
    List.Sorted (fun p q : String × String => strLeB p.1 q.1 = true) (sortByName l) := by
  haveI : IsTotal (String × String) (fun p q => strLeB p.1 q.1 = true) :=
    ⟨fun a b => lexLe_total a.1.data b.1.data⟩
  haveI : IsTrans (String × String) (fun p q => strLeB p.1 q.1 = true) :=
    ⟨fun a b c h1 h2 => lexLe_trans a.1.data b.1.data c.1.data h1 h2⟩
  exact List.sorted_insertionSort _ l

theorem runMigrations_none {δ : Type} (M : DbModel δ) (db : DbState δ) :
    runMigrations M db none = (none, db, [LogEntry.noMigrationsDir]) := rfl

theorem runMigrations_some_ok {δ : Type} (M : DbModel δ) (db : DbState δ)
    (fl : List (String × String)) (db' : DbState δ) (lgs : List LogEntry)
    (h : runFiles M db.ledger (sortByName (fl.filter (fun p => endsWithSql p.1))) db =
      (none, db', lgs)) :
    runMigrations M db (some fl) = (none, db', lgs ++ [LogEntry.migrationsComplete]) := by
  simp only [runMigrations]
  rw [h]

theorem runMigrations_some_fail {δ : Type} (M : DbModel δ) (db : DbState δ)
    (fl : List (String × String)) (e : SqlError) (db' : DbState δ)
    (lgs : List LogEntry)
    (h : runFiles M db.ledger (sortByName (fl.filter (fun p => endsWithSql p.1))) db =
      (some e, db', lgs)) :
    runMigrations M db (some fl) = (some e, db', lgs) := by
  simp only [runMigrations]
  rw [h]

end Migrate

namespace Migrate

/-- C3: quote-awareness of the splitter. A `;` scanned while a single-,
double- or backtick-quoted state is active does not terminate the statement:
it is appended to the current buffer and nothing is pushed. A quote character
whose immediately preceding input character is `\` does not toggle any quote
state: it is appended with all flags unchanged. And the claim's concrete
input `SELECT 'a;b'; SELECT 1;` splits into exactly
`["SELECT 'a;b'", "SELECT 1"]`. -/
theorem claim_C3 :
    (∀ (prev : Option Char) (rest : List Char) (st : SplitState),
        st.inLineComment = false → st.inBlockComment = false →
        (st.inSingle = true ∨ st.inDouble = true ∨ st.inBacktick = true) →
        splitLoop prev (';' :: rest) st =
          splitLoop (some ';') rest { st with current := st.current ++ [';'] }) ∧
    (∀ (q : Char) (rest : List Char) (st : SplitState),
        st.inLineComment = false → st.inBlockComment = false →
        (q = '\'' ∨ q = '"' ∨ q = '`') →
        splitLoop (some '\\') (q :: rest) st =
          splitLoop (some q) rest { st with current := st.current ++ [q] }) ∧
    splitSqlStatements "SELECT 'a;b'; SELECT 1;" = ["SELECT 'a;b'", "SELECT 1"] := by
  refine ⟨?_, ?_, by decide⟩
  · intro prev rest st h1 h2 hq
    cases rest with
    | nil =>
      simp only [splitLoop, h1, h2, Bool.false_eq_true, if_false]
      rcases hq with h | h | h <;> simp [normalStepState, quoteToggles, h, h1, h2]
    | cons r1 rest2 =>
      simp only [splitLoop, h1, h2, Bool.false_eq_true, if_false]
      rcases hq with h | h | h <;> simp [normalStepState, quoteToggles, h, h1, h2]
  · intro q rest st h1 h2 hq
    have step : ∀ (hq1 : q = '\'' ∨ q = '"' ∨ q = '`'),
        normalStepState (some '\\') q st = { st with current := st.current ++ [q] } := by
      rintro (rfl | rfl | rfl) <;> simp [normalStepState, quoteToggles]
    rcases hq with rfl | rfl | rfl <;>
      rw [splitLoop_normal (some '\\') _ rest st h1 h2 (by simp) (by simp),
        step (by decide)]

/-- Closed instance of `claim_C3`: both step facts applied in an active
single-quote state, plus the concrete split of the claim. -/
theorem claim_C3_witness :
    splitLoop none [';'] ⟨[], ['x'], true, false, false, false, false⟩ =
      splitLoop (some ';') [] ⟨[], ['x', ';'], true, false, false, false, false⟩ ∧
    splitLoop (some '\\') ['\''] ⟨[], ['x'], true, false, false, false, false⟩ =
      splitLoop (some '\'') [] ⟨[], ['x', '\''], true, false, false, false, false⟩ ∧
    splitSqlStatements "SELECT 'a;b'; SELECT 1;" = ["SELECT 'a;b'", "SELECT 1"] := by
  obtain ⟨h1, h2, h3⟩ := claim_C3
  exact ⟨h1 none [] ⟨[], ['x'], true, false, false, false, false⟩ rfl rfl (Or.inl rfl),
    h2 '\'' [] ⟨[], ['x'], true, false, false, false, false⟩ rfl rfl (Or.inl rfl), h3⟩

/-- C4: comment handling of the splitter. Outside quotes, `--` starts a line
comment; inside a line comment every character except the newline is
discarded and the terminating newline is appended to the buffer while ending
the comment. Outside quotes, `/*` starts a block comment; inside a block
comment every character is discarded until `*/`, which is consumed without
appending anything. Consequently `-- comment\nSELECT 1;` splits into
`["SELECT 1"]` and `SELECT 1; /* x; y */ SELECT 2;` splits into
`["SELECT 1", "SELECT 2"]`. -/
theorem claim_C4 :
    (∀ (prev : Option Char) (rest2 : List Char) (st : SplitState),
        st.inLineComment = false → st.inBlockComment = false →
        st.inSingle = false ∧ st.inDouble = false ∧ st.inBacktick = false →
        splitLoop prev ('-' :: '-' :: rest2) st =
          splitLoop (some '-') rest2 { st with inLineComment := true }) ∧
    (∀ (prev : Option Char) (c : Char) (rest : List Char) (st : SplitState),
        st.inLineComment = true → c ≠ '\n' →
        splitLoop prev (c :: rest) st = splitLoop (some c) rest st) ∧
    (∀ (prev : Option Char) (rest : List Char) (st : SplitState),
        st.inLineComment = true →
        splitLoop prev ('\n' :: rest) st =
          splitLoop (some '\n') rest
            { st with inLineComment := false, current := st.current ++ ['\n'] }) ∧
    (∀ (prev : Option Char) (rest2 : List Char) (st : SplitState),
        st.inLineComment = false → st.inBlockComment = false →
        st.inSingle = false ∧ st.inDouble = false ∧ st.inBacktick = false →
        splitLoop prev ('/' :: '*' :: rest2) st =
          splitLoop (some '*') rest2 { st with inBlockComment := true }) ∧
    (∀ (prev : Option Char) (c : Char) (rest : List Char) (st : SplitState),
        st.inLineComment = false → st.inBlockComment = true →
        ¬(c = '*' ∧ rest.head? = some '/') →
        splitLoop prev (c :: rest) st = splitLoop (some c) rest st) ∧
    (∀ (prev : Option Char) (rest2 : List Char) (st : SplitState),
        st.inLineComment = false → st.inBlockComment = true →
        splitLoop prev ('*' :: '/' :: rest2) st =
          splitLoop (some '/') rest2 { st with inBlockComment := false }) ∧
    splitSqlStatements "-- comment\nSELECT 1;" = ["SELECT 1"] ∧
    splitSqlStatements "SELECT 1; /* x; y */ SELECT 2;" = ["SELECT 1", "SELECT 2"] := by
  exact ⟨splitLoop_line_start, splitLoop_line_skip, splitLoop_line_nl,
    splitLoop_block_start, splitLoop_block_skip, splitLoop_block_end,
    by decide, by decide⟩

/-- Closed instance of `claim_C4`: each comment step fact applied at a
concrete state, plus the two concrete splits of the claim. -/
theorem claim_C4_witness :
    splitLoop none ['-', '-', 'x'] initState =
      splitLoop (some '-') ['x'] { initState with inLineComment := true } ∧
    splitLoop none ['x'] { initState with inLineComment := true } =
      splitLoop (some 'x') [] { initState with inLineComment := true } ∧
    splitLoop none ['\n'] { initState with inLineComment := true } =
      splitLoop (some '\n') [] { initState with current := ['\n'] } ∧
    splitLoop none ['/', '*', 'x'] initState =
      splitLoop (some '*') ['x'] { initState with inBlockComment := true } ∧
    splitLoop none ['x'] { initState with inBlockComment := true } =
      splitLoop (some 'x') [] { initState with inBlockComment := true } ∧
    splitLoop none ['*', '/', 'x'] { initState with inBlockComment := true } =
      splitLoop (some '/') ['x'] initState ∧
    splitSqlStatements "-- comment\nSELECT 1;" = ["SELECT 1"] ∧
    splitSqlStatements "SELECT 1; /* x; y */ SELECT 2;" = ["SELECT 1", "SELECT 2"] := by
  obtain ⟨h1, h2, h3, h4, h5, h6, h7, h8⟩ := claim_C4
  exact ⟨h1 none ['x'] initState rfl rfl ⟨rfl, rfl, rfl⟩,
    h2 none 'x' [] { initState with inLineComment := true } rfl (by decide),
    h3 none [] { initState with inLineComment := true } rfl,
    h4 none ['x'] initState rfl rfl ⟨rfl, rfl, rfl⟩,
    h5 none 'x' [] { initState with inBlockComment := true } rfl rfl (by decide),
    h6 none ['x'] { initState with inBlockComment := true } rfl rfl,
    h7, h8⟩

/-- C5: output contract of the splitter. Every returned element is non-empty
and is its own whitespace-trim; the concatenation of the returned elements
is a subsequence of the input text, so the statements appear in input order
with terminating semicolons and comment text excluded; and a trailing
statement without `;` is still emitted: `SELECT 1; SELECT 2` splits into
`["SELECT 1", "SELECT 2"]`. -/
theorem claim_C5 :
    (∀ (s e : String), e ∈ splitSqlStatements s → e ≠ "" ∧ strTrim e = e) ∧
    (∀ (s : String), List.Sublist (joinData (splitSqlStatements s)) s.data) ∧
    splitSqlStatements "SELECT 1; SELECT 2" = ["SELECT 1", "SELECT 2"] :=
  ⟨fun s e he => splitSqlStatements_mem s e he,
   splitSqlStatements_joinData_sublist, by decide⟩

/-- Closed instance of `claim_C5` at the claim's concrete input. -/
theorem claim_C5_witness :
    ("SELECT 1" ≠ "" ∧ strTrim "SELECT 1" = "SELECT 1") ∧
    List.Sublist (joinData (splitSqlStatements "SELECT 1; SELECT 2"))
      "SELECT 1; SELECT 2".data ∧
    splitSqlStatements "SELECT 1; SELECT 2" = ["SELECT 1", "SELECT 2"] := by
  obtain ⟨h1, h2, h3⟩ := claim_C5
  exact ⟨h1 "SELECT 1; SELECT 2" "SELECT 1" (by decide), h2 "SELECT 1; SELECT 2", h3⟩

/-- C10: total behaviour of the splitter on malformed input. With a block
comment left unclosed, every remaining character is discarded and the state
is returned unchanged, so the unterminated tail contributes no statement;
with a quote left unclosed, every remaining character (semicolons included)
is appended to the buffer, which is emitted as one final statement at end of
input. Concretely, `SELECT 1; /* unclosed; SELECT 2` yields `["SELECT 1"]`
and `SELECT 'a; b; c` yields `["SELECT 'a; b; c"]`. (The model is a total
function, so termination on every input holds by construction.) -/
theorem claim_C10 :
    (∀ (prev : Option Char) (cs : List Char) (st : SplitState),
        st.inLineComment = false → st.inBlockComment = true →
        hasStarSlash cs = false → splitLoop prev cs st = st) ∧
    (∀ (prev : Option Char) (cs : List Char) (st : SplitState),
        st.inLineComment = false → st.inBlockComment = false →
        st.inSingle = true → '\'' ∉ cs →
        splitLoop prev cs st = { st with current := st.current ++ cs }) ∧
    splitSqlStatements "SELECT 1; /* unclosed; SELECT 2" = ["SELECT 1"] ∧
    splitSqlStatements "SELECT 'a; b; c" = ["SELECT 'a; b; c"] := by
  refine ⟨?_, ?_, by decide, by decide⟩
  · intro prev cs st h1 h2
    induction cs generalizing prev with
    | nil => intro _; exact splitLoop_nil prev st
    | cons c rest ih =>
      intro hss
      simp only [hasStarSlash] at hss
      split_ifs at hss with hcond
      rw [splitLoop_block_skip prev c rest st h1 h2 hcond]
      exact ih (some c) hss
  · intro prev cs st
    induction cs generalizing prev st with
    | nil =>
      intro h1 h2 h3 hmem
      rw [splitLoop_nil]
      cases st
      simp
    | cons c rest ih =>
      intro h1 h2 h3 hmem
      simp only [List.mem_cons, not_or] at hmem
      have hc : c ≠ '\'' := fun h => hmem.1 h.symm
      have hns : normalStepState prev c st = { st with current := st.current ++ [c] } := by
        simp [normalStepState, quoteToggles, h3, hc]
      rw [splitLoop_normal prev c rest st h1 h2 (by simp [h3]) (by simp [h3]), hns]
      rw [ih (some c) { st with current := st.current ++ [c] } h1 h2 h3 hmem.2]
      cases st
      simp

/-- Closed instance of `claim_C10`: both tail behaviours at concrete states,
plus the two concrete splits. -/
theorem claim_C10_witness :
    splitLoop none [';', 'x'] { initState with inBlockComment := true } =
      { initState with inBlockComment := true } ∧
    splitLoop none [';', 'x'] { initState with inSingle := true } =
      { initState with inSingle := true, current := [';', 'x'] } ∧
    splitSqlStatements "SELECT 1; /* unclosed; SELECT 2" = ["SELECT 1"] ∧
    splitSqlStatements "SELECT 'a; b; c" = ["SELECT 'a; b; c"] := by
  obtain ⟨h1, h2, h3, h4⟩ := claim_C10
  exact ⟨h1 none [';', 'x'] { initState with inBlockComment := true } rfl rfl (by decide),
    h2 none [';', 'x'] { initState with inSingle := true } rfl rfl rfl (by decide),
    h3, h4⟩

end Migrate

namespace Migrate

/-- C9 counterexample: re-splitting the `;`-join of the splitter's output
does not always reproduce the output. For `a\/*x*/'b;c` the backslash and
the quote are separated in the original text by a block comment, so the
quote toggles on first scan (its raw predecessor is `/`) and the whole text
stays one statement; after joining, the quote immediately follows the
backslash, is treated as escaped, and the re-split breaks the statement at
the `;`. -/
theorem claim_C9_counterexample :
    splitSqlStatements (joinSemi (splitSqlStatements "a\\/*x*/'b;c")) ≠
      splitSqlStatements "a\\/*x*/'b;c" := by
  decide

/-- C9 (amended): the round-trip does hold for every migration text whose
produced statements are all self-contained — each statement, re-scanned
alone, re-accumulates exactly itself with no quote or comment state left
open (the precise content of the claim's "without edge-case ambiguity"):
for such texts, splitting the `;`-join of the output yields the output
again. -/
theorem claim_C9 (t : String)
    (h : ∀ e ∈ splitSqlStatements t, SelfContained e) :
    splitSqlStatements (joinSemi (splitSqlStatements t)) = splitSqlStatements t := by
  refine splitSql_joinSemi (splitSqlStatements t) ?_
  intro e he
  obtain ⟨hne, htr⟩ := splitSqlStatements_mem t e he
  exact ⟨h e he, hne, htr⟩

/-- Closed instance of `claim_C9` at a concrete two-statement text. -/
theorem claim_C9_witness :
    (∀ e ∈ splitSqlStatements "SELECT 1; SELECT 2;", SelfContained e) ∧
    splitSqlStatements (joinSemi (splitSqlStatements "SELECT 1; SELECT 2;")) =
      splitSqlStatements "SELECT 1; SELECT 2;" :=
  ⟨by decide, claim_C9 "SELECT 1; SELECT 2;" (by decide)⟩

/-- C1: a fatal statement error makes the run halt with the failed
migration's transaction rolled back. If the first unapplied source `n1`
fails fatally with error `e`, the whole run returns that error, the
database is left exactly as it was before the run (no statement effect of
the failed migration persists), the ledger still has no record for `n1`,
and the result does not depend on the remaining sources `rest` at all — no
later migration source is attempted. -/
theorem claim_C1 {δ : Type} (M : DbModel δ) (db : DbState δ)
    (fl : List (String × String)) (n1 t1 : String)
    (rest : List (String × String)) (e : SqlError)
    (hsort : sortByName (fl.filter (fun p => endsWithSql p.1)) = (n1, t1) :: rest)
    (hnew : n1 ∉ db.ledger)
    (hfail : (applyMigrationFile M db n1 t1).err = some e) :
    runMigrations M db (some fl) =
      (some e, db, (applyMigrationFile M db n1 t1).logs) ∧
    n1 ∉ (runMigrations M db (some fl)).2.1.ledger := by
  have hrf : runFiles M db.ledger ((n1, t1) :: rest) db =
      (some e, db, (applyMigrationFile M db n1 t1).logs) :=
    runFiles_fail M db.ledger n1 t1 rest db e hnew hfail
  have hrm : runMigrations M db (some fl) =
      (some e, db, (applyMigrationFile M db n1 t1).logs) :=
    runMigrations_some_fail M db fl e db (applyMigrationFile M db n1 t1).logs
      (by rw [hsort]; exact hrf)
  refine ⟨hrm, ?_⟩
  rw [hrm]
  exact hnew

/-- Closed instance of `claim_C1`: a two-migration run over the demo
database where the first migration's second statement fails fatally. -/
theorem claim_C1_witness :
    runMigrations demoModel ⟨[], []⟩
        (some [("001_create.sql", "CREATE T; BOOM;"), ("002_more.sql", "CREATE U;")]) =
      (some { code := "ER_PARSE_ERROR", message := "You have an error in your SQL syntax" },
       ⟨[], []⟩,
       (applyMigrationFile demoModel ⟨[], []⟩ "001_create.sql" "CREATE T; BOOM;").logs) ∧
    "001_create.sql" ∉ (runMigrations demoModel ⟨[], []⟩
        (some [("001_create.sql", "CREATE T; BOOM;"),
               ("002_more.sql", "CREATE U;")])).2.1.ledger :=
  claim_C1 demoModel ⟨[], []⟩
    [("001_create.sql", "CREATE T; BOOM;"), ("002_more.sql", "CREATE U;")]
    "001_create.sql" "CREATE T; BOOM;" [("002_more.sql", "CREATE U;")]
    { code := "ER_PARSE_ERROR", message := "You have an error in your SQL syntax" }
    (by decide) (by decide) (by decide)

end Migrate

namespace Migrate

/-- C2: a tolerated "already exists"-class statement error is logged and
execution continues with the next statement in the same transaction; and in
the claim's scenario — a migration whose two statements are `A` (failing
with a tolerated duplicate-column error) and `B` (succeeding) — `B`'s
effect is committed, the migration is recorded in the ledger, and the logs
show the skip diagnostic followed by the success line. -/
theorem claim_C2 :
    (∀ (δ : Type) (M : DbModel δ) (fileName stmt : String) (rest : List String)
        (schema : δ) (e : SqlError),
        stmt ≠ "" → M.exec schema stmt = Except.error e → isToleratedError e = true →
        execStatements M fileName (stmt :: rest) schema =
          ((execStatements M fileName rest schema).1,
           (execStatements M fileName rest schema).2.1,
           LogEntry.skipping fileName (firstLine e.message) ::
             (execStatements M fileName rest schema).2.2)) ∧
    (∀ (δ : Type) (M : DbModel δ) (db : DbState δ) (name text A B : String)
        (e : SqlError) (s2 : δ),
        splitSqlStatements text = [A, B] →
        M.exec db.schema A = Except.error e → isToleratedError e = true →
        M.exec db.schema B = Except.ok s2 →
        applyMigrationFile M db name text =
          { db := { schema := s2, ledger := insertIgnore db.ledger name },
            err := none,
            logs := [LogEntry.skipping name (firstLine e.message),
                     LogEntry.processed name] } ∧
        name ∈ (applyMigrationFile M db name text).db.ledger) := by
  constructor
  · intro δ M fileName stmt rest schema e hne hex htol
    simp [execStatements, hne, hex, htol]
  · intro δ M db name text A B e s2 htext hexA htol hexB
    have hA : A ≠ "" := (splitSqlStatements_mem text A (by rw [htext]; simp)).1
    have hB : B ≠ "" := (splitSqlStatements_mem text B (by rw [htext]; simp)).1
    have h1 : execStatements M name [A, B] db.schema =
        (none, s2, [LogEntry.skipping name (firstLine e.message)]) := by
      simp [execStatements, hA, hB, hexA, hexB, htol]
    have h2 : applyMigrationFile M db name text =
        { db := { schema := s2, ledger := insertIgnore db.ledger name },
          err := none,
          logs := [LogEntry.skipping name (firstLine e.message),
                   LogEntry.processed name] } := by
      unfold applyMigrationFile
      rw [htext, h1]
      rfl
    refine ⟨h2, ?_⟩
    rw [h2]
    exact insertIgnore_mem_self db.ledger name

/-- Closed instance of `claim_C2` on the demo database: `DUP` fails with a
tolerated duplicate-column error, `CREATE B` succeeds and is committed, and
the migration is marked applied. -/
theorem claim_C2_witness :
    execStatements demoModel "001_m.sql" ["DUP", "CREATE B"] [] =
      ((execStatements demoModel "001_m.sql" ["CREATE B"] []).1,
       (execStatements demoModel "001_m.sql" ["CREATE B"] []).2.1,
       LogEntry.skipping "001_m.sql" (firstLine "Duplicate column name 'a'") ::
         (execStatements demoModel "001_m.sql" ["CREATE B"] []).2.2) ∧
    (applyMigrationFile demoModel ⟨[], []⟩ "001_m.sql" "DUP; CREATE B;" =
      { db := { schema := ["CREATE B"], ledger := insertIgnore [] "001_m.sql" },
        err := none,
        logs := [LogEntry.skipping "001_m.sql" (firstLine "Duplicate column name 'a'"),
                 LogEntry.processed "001_m.sql"] } ∧
     "001_m.sql" ∈
       (applyMigrationFile demoModel ⟨[], []⟩ "001_m.sql" "DUP; CREATE B;").db.ledger) := by
  obtain ⟨h1, h2⟩ := claim_C2
  exact ⟨h1 (List String) demoModel "001_m.sql" "DUP" ["CREATE B"] []
      ⟨"ER_DUP_FIELDNAME", "Duplicate column name 'a'"⟩ (by decide) rfl (by decide),
    h2 (List String) demoModel ⟨[], []⟩ "001_m.sql" "DUP; CREATE B;" "DUP" "CREATE B"
      ⟨"ER_DUP_FIELDNAME", "Duplicate column name 'a'"⟩ ["CREATE B"]
      (by decide) rfl (by decide) rfl⟩

/-- C6: ordering and filtering of the Runner. The comparison driving the
sort is exactly lexicographic order on the characters; the sorted source
list is ascending under it and has the same members as the `.sql`-filtered
input; a successful loop processes exactly the sources whose names are not
in the applied set, in list order; and the concrete run over sources
`2025-01-02-a.sql`, `notes.txt`, `2025-01-01-b.sql` applies
`2025-01-01-b.sql` before `2025-01-02-a.sql` and ignores the non-`.sql`
file. -/
theorem claim_C6 :
    (∀ (a b : List Char), lexLe a b = true ↔ (a = b ∨ List.Lex (· < ·) a b)) ∧
    (∀ (l : List (String × String)),
        List.Sorted (fun p q : String × String => strLeB p.1 q.1 = true) (sortByName l)) ∧
    (∀ (l : List (String × String)) (p : String × String),
        p ∈ sortByName l ↔ p ∈ l) ∧
    (∀ (δ : Type) (M : DbModel δ) (applied : List String)
        (files : List (String × String)) (db db' : DbState δ) (lgs : List LogEntry),
        runFiles M applied files db = (none, db', lgs) →
        processedNames lgs =
          (files.filter (fun p => decide (p.1 ∉ applied))).map Prod.fst) ∧
    processedNames (runMigrations demoModel ⟨[], []⟩
        (some [("2025-01-02-a.sql", "CREATE A;"), ("notes.txt", "CREATE N;"),
               ("2025-01-01-b.sql", "CREATE B;")])).2.2 =
      ["2025-01-01-b.sql", "2025-01-02-a.sql"] :=
  ⟨lexLe_iff_lex, sortByName_sorted, sortByName_mem,
   fun δ M applied files db db' lgs h =>
     runFiles_processedNames M applied files db db' lgs h,
   by decide⟩

/-- Closed instance of `claim_C6`: the lexicographic characterisation at a
concrete pair, the processed-order equation at a concrete two-source loop
with one source already applied, and the concrete ordering run. -/
theorem claim_C6_witness :
    (lexLe "ab".data "b".data = true ↔
      ("ab".data = "b".data ∨ List.Lex (· < ·) "ab".data "b".data)) ∧
    processedNames (runFiles demoModel ["000_old.sql"]
        [("000_old.sql", "CREATE O;"), ("001_new.sql", "CREATE N;")]
        ⟨[], ["000_old.sql"]⟩).2.2 =
      ([("000_old.sql", "CREATE O;"), ("001_new.sql", "CREATE N;")].filter
        (fun p => decide (p.1 ∉ ["000_old.sql"]))).map Prod.fst ∧
    processedNames (runMigrations demoModel ⟨[], []⟩
        (some [("2025-01-02-a.sql", "CREATE A;"), ("notes.txt", "CREATE N;"),
               ("2025-01-01-b.sql", "CREATE B;")])).2.2 =
      ["2025-01-01-b.sql", "2025-01-02-a.sql"] := by
  obtain ⟨h1, h2, h3, h4, h5⟩ := claim_C6
  exact ⟨h1 "ab".data "b".data,
    h4 (List String) demoModel ["000_old.sql"]
      [("000_old.sql", "CREATE O;"), ("001_new.sql", "CREATE N;")]
      ⟨[], ["000_old.sql"]⟩ ⟨["CREATE N"], ["000_old.sql", "001_new.sql"]⟩
      [LogEntry.processed "001_new.sql"] (by decide),
    h5⟩

end Migrate

namespace Migrate

/-- C7: idempotent re-run. After a successful run, every `.sql` source name
is recorded in the ledger; when the ledger started duplicate-free it stays
duplicate-free and records each such name exactly once; running the same
sources again changes nothing — the database is returned as-is and the only
log line is the completion message — and the list of sources that would be
applied on the second run (the non-recorded ones, in sorted order) is
empty, so the second run executes zero statements. -/
theorem claim_C7 {δ : Type} (M : DbModel δ) (db db1 : DbState δ)
    (fl : List (String × String)) (lgs : List LogEntry)
    (h : runMigrations M db (some fl) = (none, db1, lgs)) :
    (∀ p ∈ fl, endsWithSql p.1 = true → p.1 ∈ db1.ledger) ∧
    (db.ledger.Nodup → db1.ledger.Nodup ∧
      ∀ p ∈ fl, endsWithSql p.1 = true → db1.ledger.count p.1 = 1) ∧
    runMigrations M db1 (some fl) = (none, db1, [LogEntry.migrationsComplete]) ∧
    (sortByName (fl.filter (fun p => endsWithSql p.1))).filter
        (fun p => decide (p.1 ∉ db1.ledger)) = [] := by
  rcases hr : runFiles M db.ledger (sortByName (fl.filter (fun p => endsWithSql p.1))) db
    with ⟨eo, dbr, lr⟩
  cases eo with
  | some e =>
    rw [runMigrations_some_fail M db fl e dbr lr hr] at h
    simp at h
  | none =>
    rw [runMigrations_some_ok M db fl dbr lr hr] at h
    have hdb : dbr = db1 := by
      have := congrArg (fun z => z.2.1) h
      simpa using this
    subst hdb
    have hmem : ∀ p ∈ fl, endsWithSql p.1 = true → p.1 ∈ dbr.ledger := by
      intro p hp hsql
      refine runFiles_none_mem M db.ledger _ db dbr lr hr (fun x hx => hx) p ?_
      rw [sortByName_mem]
      exact List.mem_filter.2 ⟨hp, hsql⟩
    have hsortmem : ∀ p ∈ sortByName (fl.filter (fun p => endsWithSql p.1)),
        p.1 ∈ dbr.ledger := by
      intro p hp
      rw [sortByName_mem] at hp
      have hf := List.mem_filter.1 hp
      exact hmem p hf.1 hf.2
    refine ⟨hmem, ?_, ?_, ?_⟩
    · intro hnd
      have hnd1 : dbr.ledger.Nodup := by
        have := runFiles_ledger_nodup M db.ledger
          (sortByName (fl.filter (fun p => endsWithSql p.1))) db hnd
        rw [hr] at this
        exact this
      exact ⟨hnd1, fun p hp hsql => List.count_eq_one_of_mem hnd1 (hmem p hp hsql)⟩
    · refine (runMigrations_some_ok M dbr fl dbr [] ?_).trans (by simp)
      exact runFiles_skip_all M dbr.ledger _ dbr hsortmem
    · rw [List.filter_eq_nil_iff]
      intro p hp
      simp [hsortmem p hp]

/-- Closed instance of `claim_C7`: a successful two-migration run on the
demo database, then all four idempotence conclusions at that run. -/
theorem claim_C7_witness :
    (∀ p ∈ [("001_a.sql", "CREATE A;"), ("002_b.sql", "CREATE B;")],
        endsWithSql p.1 = true →
        p.1 ∈ (⟨["CREATE A", "CREATE B"], ["001_a.sql", "002_b.sql"]⟩ :
          DbState (List String)).ledger) ∧
    ((⟨[], []⟩ : DbState (List String)).ledger.Nodup →
      (⟨["CREATE A", "CREATE B"], ["001_a.sql", "002_b.sql"]⟩ :
        DbState (List String)).ledger.Nodup ∧
      ∀ p ∈ [("001_a.sql", "CREATE A;"), ("002_b.sql", "CREATE B;")],
        endsWithSql p.1 = true →
        (⟨["CREATE A", "CREATE B"], ["001_a.sql", "002_b.sql"]⟩ :
          DbState (List String)).ledger.count p.1 = 1) ∧
    runMigrations demoModel
        ⟨["CREATE A", "CREATE B"], ["001_a.sql", "002_b.sql"]⟩
        (some [("001_a.sql", "CREATE A;"), ("002_b.sql", "CREATE B;")]) =
      (none, ⟨["CREATE A", "CREATE B"], ["001_a.sql", "002_b.sql"]⟩,
       [LogEntry.migrationsComplete]) ∧
    (sortByName ([("001_a.sql", "CREATE A;"), ("002_b.sql", "CREATE B;")].filter
        (fun p => endsWithSql p.1))).filter
      (fun p => decide (p.1 ∉ (⟨["CREATE A", "CREATE B"],
        ["001_a.sql", "002_b.sql"]⟩ : DbState (List String)).ledger)) = [] :=
  claim_C7 demoModel ⟨[], []⟩
    ⟨["CREATE A", "CREATE B"], ["001_a.sql", "002_b.sql"]⟩
    [("001_a.sql", "CREATE A;"), ("002_b.sql", "CREATE B;")]
    [LogEntry.processed "001_a.sql", LogEntry.processed "002_b.sql",
     LogEntry.migrationsComplete]
    (by decide)

/-- C8 counterexample: the value the Applier propagates on a fatal error
carries neither the migration name nor the offending statement. Two runs
that differ in both the migration name and the failing statement propagate
the exact same error value (the underlying cause alone), so that value
cannot determine either; the claimed `MigrationFailure{name, statement,
cause}` shape does not exist in the code, which rethrows the raw error. -/
theorem claim_C8_counterexample :
    (applyMigrationFile demoModel ⟨[], []⟩ "001_one.sql" "BOOM;").err =
      (applyMigrationFile demoModel ⟨[], []⟩ "002_two.sql" "CRASH;").err ∧
    (applyMigrationFile demoModel ⟨[], []⟩ "001_one.sql" "BOOM;").err =
      some ⟨"ER_PARSE_ERROR", "You have an error in your SQL syntax"⟩ := by
  decide

/-- C8 (amended): on a fatal statement error the Applier rolls the
transaction back (the persistent database is returned unchanged) and
propagates exactly the underlying error value to its caller; the migration
name is surfaced only through the logged failure line (which carries the
name and the error message, not the statement). -/
theorem claim_C8 {δ : Type} (M : DbModel δ) (db : DbState δ) (name text : String)
    (e : SqlError) (s' : δ) (lgs : List LogEntry)
    (h : execStatements M name (splitSqlStatements text) db.schema = (some e, s', lgs)) :
    applyMigrationFile M db name text =
      { db := db, err := some e, logs := lgs ++ [LogEntry.failed name e.message] } := by
  unfold applyMigrationFile
  rw [h]

/-- Closed instance of `claim_C8` at a concrete fatal failure. -/
theorem claim_C8_witness :
    applyMigrationFile demoModel ⟨[], []⟩ "001_one.sql" "BOOM;" =
      { db := ⟨[], []⟩,
        err := some ⟨"ER_PARSE_ERROR", "You have an error in your SQL syntax"⟩,
        logs := [] ++ [LogEntry.failed "001_one.sql"
          "You have an error in your SQL syntax"] } :=
  claim_C8 demoModel ⟨[], []⟩ "001_one.sql" "BOOM;"
    ⟨"ER_PARSE_ERROR", "You have an error in your SQL syntax"⟩ [] []
    (by decide)

end Migrate
